import Mathlib

/-
Verification of the Hateno simulation orchestrator.

The definitions below are shallow embeddings of the Python source of the
repository (module paths are given next to each definition group):
pure functions are translated to Lean functions, stateful code to explicit
state passing, machine integers to Nat with explicit modular reduction,
fallible code to Option or Except, and operating-system effects (file
system, sockets, subprocesses) to explicit environment parameters.
Theorems settle the specification claims against these embeddings.
-/

set_option maxRecDepth 4096

/- ===================================================================
   Definitions
   =================================================================== -/

namespace Hateno

/-
A setting value, as found in the JSON configuration and request files.
A finite Python float is modeled by the exact rational number it denotes
(every finite float is a rational); the non-finite floats nan and inf are
not representable in the strict JSON the program reads and are outside
the model.
-/
inductive Value where
  | vnull : Value
  | vbool (b : Bool) : Value
  | vint (n : Int) : Value
  | vfloat (q : Rat) : Value
  | vstr (s : String) : Value
  deriving DecidableEq, Repr

/-
A settings map (one Python dict of setting name to value) and the
canonical settings (the list of such maps handed to json.dumps).
-/
def SettingsMap : Type := List (String × Value)

def SettingsList : Type := List (List (String × Value))

end Hateno

/- -------------------------------------------------------------------
   json.dumps(obj, sort_keys = True) as called by
   src/utils/string.py fromObject: default separators, ensure_ascii.
   ------------------------------------------------------------------- -/

namespace Hateno.Jsonlib

def hexDigitChar (n : Nat) : Char := "0123456789abcdef".toList.getD n '0'

def hex4 (n : Nat) : List Char :=
  [hexDigitChar (n / 4096 % 16), hexDigitChar (n / 256 % 16),
   hexDigitChar (n / 16 % 16), hexDigitChar (n % 16)]

/-
The ensure_ascii escaping of json.dumps: quote and backslash and the
control characters with a short form get one, other characters outside
the printable ASCII range 0x20..0x7e become unicode escapes (a UTF-16
surrogate pair beyond the basic plane).
-/
def escapeChar (c : Char) : List Char :=
  if c = '"' then ['\\', '"']
  else if c = '\\' then ['\\', '\\']
  else if c = '\n' then ['\\', 'n']
  else if c = '\t' then ['\\', 't']
  else if c = '\r' then ['\\', 'r']
  else if c.toNat = 8 then ['\\', 'b']
  else if c.toNat = 12 then ['\\', 'f']
  else if c.toNat < 32 || 126 < c.toNat then
    if c.toNat < 65536 then '\\' :: 'u' :: hex4 c.toNat
    else
      ('\\' :: 'u' :: hex4 (55296 + (c.toNat - 65536) / 1024)) ++
      ('\\' :: 'u' :: hex4 (56320 + (c.toNat - 65536) % 1024))
  else [c]

def quoteJson (s : String) : String :=
  "\"" ++ String.mk (s.data.flatMap escapeChar) ++ "\""

/-
Serialization of a scalar value.  Python's repr of a float (shortest
round-tripping decimal) is abstracted by the floatRepr parameter: it is
a function, so serialization stays deterministic, and no claim below
depends on the digits it produces.
-/
def dumpsValue (floatRepr : Rat → String) : Value → String
  | .vnull => "null"
  | .vbool true => "true"
  | .vbool false => "false"
  | .vint n => toString n
  | .vfloat q => floatRepr q
  | .vstr s => quoteJson s

/-
sort_keys = True orders the items of every object by key; Python
compares strings by code point, as Lean's String order does.
-/
def keyLE (p q : String × Value) : Bool := decide (p.1 ≤ q.1)

def sortKeys (m : List (String × Value)) : List (String × Value) :=
  m.mergeSort keyLE

def joinSep (sep : String) : List String → String
  | [] => ""
  | [x] => x
  | x :: y :: rest => x ++ sep ++ joinSep sep (y :: rest)

/-
One object: sorted items rendered as "key": value, joined by the default
item separator and wrapped in braces.
-/
def dumpsMap (floatRepr : Rat → String) (m : List (String × Value)) : String :=
  "\x7b" ++ joinSep ", "
    ((sortKeys m).map (fun kv =>
      quoteJson kv.1 ++ ": " ++ dumpsValue floatRepr kv.2)) ++
  "\x7d"

/-
The canonical settings document: an array of objects.
-/
def dumpsSettings (floatRepr : Rat → String)
    (ss : List (List (String × Value))) : String :=
  "[" ++ joinSep ", " (ss.map (dumpsMap floatRepr)) ++ "]"

end Hateno.Jsonlib

/- -------------------------------------------------------------------
   src/utils/string.py: fromObject (lines 30-47) and hash (lines 49-67),
   together with the hashlib.md5, base64 and codecs calls they make.
   ------------------------------------------------------------------- -/

namespace Hateno.HString

open Hateno.Jsonlib

def b64Table : List Char :=
  "ABCDEFGHIJKLMNOPQRSTUVWXYZabcdefghijklmnopqrstuvwxyz0123456789+/".toList

def b64Char (n : Nat) : Char := b64Table.getD n 'A'

/-
RFC 4648 base64 of a byte list, three bytes to four characters with
trailing padding, as base64.b64encode produces.
-/
def b64encode : List Nat → List Char
  | [] => []
  | [a] => [b64Char (a / 4 % 64), b64Char (a % 4 * 16), '=', '=']
  | [a, b] => [b64Char (a / 4 % 64), b64Char ((a % 4 * 16 + b / 16) % 64),
               b64Char (b % 16 * 4), '=']
  | a :: b :: c :: rest =>
    b64Char (a / 4 % 64) :: b64Char ((a % 4 * 16 + b / 16) % 64) ::
    b64Char ((b % 16 * 4 + c / 64) % 64) :: b64Char (c % 64) :: b64encode rest

/-
base64.urlsafe_b64encode is b64encode with plus and slash replaced.
-/
def urlsafeChar (c : Char) : Char :=
  if c = '+' then '-' else if c = '/' then '_' else c

/-
UTF-8 bytes of a string: every string encoded in this pipeline (the
ensure_ascii output of json.dumps and base64 text) is pure ASCII, where
the UTF-8 bytes are the code points.
-/
def strBytes (s : String) : List Nat := s.data.map Char.toNat

/- MD5 (RFC 1321), as hashlib.md5 computes it. -/

def M32 : Nat := 4294967296

def add32 (a b : Nat) : Nat := (a + b) % M32

def not32 (a : Nat) : Nat := 4294967295 - a % M32

def rotl32 (x s : Nat) : Nat :=
  (x % M32 * 2 ^ s + x % M32 / 2 ^ (32 - s)) % M32

def md5F (b c d : Nat) : Nat := (b &&& c) ||| (not32 b &&& d)

def md5G (b c d : Nat) : Nat := (d &&& b) ||| (not32 d &&& c)

def md5H (b c d : Nat) : Nat := b ^^^ c ^^^ d

def md5I (b c d : Nat) : Nat := c ^^^ (b ||| not32 d)

def md5K : List Nat := [
  0xd76aa478, 0xe8c7b756, 0x242070db, 0xc1bdceee,
  0xf57c0faf, 0x4787c62a, 0xa8304613, 0xfd469501,
  0x698098d8, 0x8b44f7af, 0xffff5bb1, 0x895cd7be,
  0x6b901122, 0xfd987193, 0xa679438e, 0x49b40821,
  0xf61e2562, 0xc040b340, 0x265e5a51, 0xe9b6c7aa,
  0xd62f105d, 0x02441453, 0xd8a1e681, 0xe7d3fbc8,
  0x21e1cde6, 0xc33707d6, 0xf4d50d87, 0x455a14ed,
  0xa9e3e905, 0xfcefa3f8, 0x676f02d9, 0x8d2a4c8a,
  0xfffa3942, 0x8771f681, 0x6d9d6122, 0xfde5380c,
  0xa4beea44, 0x4bdecfa9, 0xf6bb4b60, 0xbebfbc70,
  0x289b7ec6, 0xeaa127fa, 0xd4ef3085, 0x04881d05,
  0xd9d4d039, 0xe6db99e5, 0x1fa27cf8, 0xc4ac5665,
  0xf4292244, 0x432aff97, 0xab9423a7, 0xfc93a039,
  0x655b59c3, 0x8f0ccc92, 0xffeff47d, 0x85845dd1,
  0x6fa87e4f, 0xfe2ce6e0, 0xa3014314, 0x4e0811a1,
  0xf7537e82, 0xbd3af235, 0x2ad7d2bb, 0xeb86d391]

def md5S : List Nat := [
  7, 12, 17, 22, 7, 12, 17, 22, 7, 12, 17, 22, 7, 12, 17, 22,
  5, 9, 14, 20, 5, 9, 14, 20, 5, 9, 14, 20, 5, 9, 14, 20,
  4, 11, 16, 23, 4, 11, 16, 23, 4, 11, 16, 23, 4, 11, 16, 23,
  6, 10, 15, 21, 6, 10, 15, 21, 6, 10, 15, 21, 6, 10, 15, 21]

structure MD5State where
  a : Nat
  b : Nat
  c : Nat
  d : Nat

def md5InitState : MD5State :=
  ⟨0x67452301, 0xefcdab89, 0x98badcfe, 0x10325476⟩

def leBytes (k n : Nat) : List Nat :=
  (List.range k).map (fun i => n / 256 ^ i % 256)

def leWords (block : List Nat) : List Nat :=
  (List.range 16).map (fun j =>
    block.getD (4 * j) 0 + 256 * block.getD (4 * j + 1) 0 +
    65536 * block.getD (4 * j + 2) 0 + 16777216 * block.getD (4 * j + 3) 0)

def md5Round (m : List Nat) (st : MD5State) (i : Nat) : MD5State :=
  let f :=
    if i < 16 then md5F st.b st.c st.d
    else if i < 32 then md5G st.b st.c st.d
    else if i < 48 then md5H st.b st.c st.d
    else md5I st.b st.c st.d
  let g :=
    if i < 16 then i
    else if i < 32 then (5 * i + 1) % 16
    else if i < 48 then (3 * i + 5) % 16
    else 7 * i % 16
  let tmp := add32 (add32 (add32 st.a f) (md5K.getD i 0)) (m.getD g 0)
  ⟨st.d, add32 st.b (rotl32 tmp (md5S.getD i 0)), st.b, st.c⟩

def md5Block (st : MD5State) (block : List Nat) : MD5State :=
  let m := leWords block
  let r := (List.range 64).foldl (md5Round m) st
  ⟨add32 st.a r.a, add32 st.b r.b, add32 st.c r.c, add32 st.d r.d⟩

def chunks64 : List Nat → List (List Nat)
  | [] => []
  | x :: rest => ((x :: rest).take 64) :: chunks64 ((x :: rest).drop 64)
termination_by l => l.length
decreasing_by simp [List.length_drop]; omega

def md5Pad (msg : List Nat) : List Nat :=
  msg ++ 128 :: List.replicate ((119 - msg.length % 64) % 64) 0 ++
    leBytes 8 (8 * msg.length)

def md5 (msg : List Nat) : List Nat :=
  let st := (chunks64 (md5Pad msg)).foldl md5Block md5InitState
  leBytes 4 st.a ++ leBytes 4 st.b ++ leBytes 4 st.c ++ leBytes 4 st.d

def hexByte (b : Nat) : List Char :=
  [hexDigitChar (b / 16 % 16), hexDigitChar (b % 16)]

/- hashlib's hexdigest: two lowercase hex digits per digest byte. -/
def hexdigest (bs : List Nat) : String := String.mk (bs.flatMap hexByte)

def hexCharVal (c : Char) : Nat :=
  if '0' ≤ c && c ≤ '9' then c.toNat - 48
  else if 'a' ≤ c && c ≤ 'f' then c.toNat - 87
  else 0

def chunkPairs {α : Type} : List α → List (α × α)
  | a :: b :: rest => (a, b) :: chunkPairs rest
  | _ => []

/- codecs.decode(-, 'hex'): consecutive digit pairs back to bytes. -/
def hexDecode (s : String) : List Nat :=
  (chunkPairs s.data).map (fun p => 16 * hexCharVal p.1 + hexCharVal p.2)

/-
codecs.encode(-, 'base64') appends a newline (it wraps lines at 76
characters; the inputs used here are 16-byte digests, 24 characters, so
exactly one trailing newline appears).
-/
def codecsB64 (bs : List Nat) : List Char := b64encode bs ++ ['\n']

/-
fromObject (src/utils/string.py, lines 30-47): the sorted-keys JSON
serialization of the canonical settings, base64url-encoded.
-/
def fromObject (floatRepr : Rat → String)
    (ss : List (List (String × Value))) : String :=
  String.mk ((b64encode (strBytes (dumpsSettings floatRepr ss))).map urlsafeChar)

/-
hash (src/utils/string.py, lines 49-67): md5 hexdigest of the UTF-8
bytes, hex-decoded back to the raw digest, base64-encoded through
codecs, the trailing newline dropped, plus and slash replaced, and the
two padding characters dropped.
-/
def hash (s : String) : String :=
  let h := hexdigest (md5 (strBytes s))
  let b := codecsB64 (hexDecode h)
  String.mk (((b.dropLast.map urlsafeChar).dropLast).dropLast)

/-
The archive name of a simulation, as computed by Manager.add,
Manager.delete and Manager.extract (src/manager/manager.py):
string.hash(string.fromObject(full_settings)).
-/
def archiveName (floatRepr : Rat → String)
    (ss : List (List (String × Value))) : String :=
  hash (fromObject floatRepr ss)

def isUrlsafeChar (c : Char) : Bool := c.isAlphanum || c = '-' || c = '_'

end Hateno.HString

/- -------------------------------------------------------------------
   src/manager/fixers.py and Folder.applyFixers
   (src/src/hateno/folder.py, lines 277-319)
   ------------------------------------------------------------------- -/

namespace Hateno.Fixers

/-
fixer_intFloats (src/manager/fixers.py, lines 10-18):
if type(value) is float and int(value) == value: return int(value),
otherwise return value unchanged.  Python's int() truncates, and the
truncation equals the value exactly when the rational is an integer.
-/
def fixer_intFloats : Value → Value
  | .vfloat q => if q.den = 1 then .vint q.num else .vfloat q
  | v => v

/-
The registry of fixers built from the built-in module
(FCollection with the name filter fixer_NAME applied to
src/manager/fixers.py, whose only function is fixer_intFloats).
-/
def getFixer (name : String) : Option (Value → Value) :=
  if name = "intFloats" then some fixer_intFloats else none

/-
Folder.applyFixers (src/src/hateno/folder.py, lines 277-319): deep-copy
the value (identity in a pure model) and apply, in order, every fixer of
the chain before ++ configured ++ after; an unknown name raises
FixerNotFoundError, modeled by the error branch carrying the name.
Chain items are bare names (the name-with-arguments form is unused by
the built-in fixer, which takes no extra arguments).
-/
def applyFixers : List String → Value → Except String Value
  | [], v => .ok v
  | name :: rest, v =>
    match getFixer name with
    | none => .error name
    | some f => applyFixers rest (f v)

end Hateno.Fixers

/- -------------------------------------------------------------------
   src/manager/checkers.py
   ------------------------------------------------------------------- -/

namespace Hateno.Checkers

/-
The file-system facts the checkers consult: glob.glob expansion of a
pattern into entry paths, os.path.isfile, and os.stat().st_size.
-/
structure FS where
  glob : String → List String
  isFile : String → Bool
  size : String → Nat

/-
os.path.join for the two-argument calls of checkers.py: an absolute
second component discards the first, otherwise the components are
joined, inserting a slash when needed.
-/
def osPathJoin (a b : String) : String :=
  if b.startsWith "/" then b
  else if a = "" then b
  else if a.endsWith "/" then a ++ b
  else a ++ "/" ++ b

/-
file_exists (src/manager/checkers.py, lines 47-49): the matching entries
that are regular files, kept via a list comprehension; the checker
returns whether that list is non-empty.
-/
def file_exists (fs : FS) (folder filename : String) : Bool :=
  ((fs.glob (osPathJoin folder filename)).filter
    (fun entry => fs.isFile entry)).length > 0

/-
file_notEmpty (src/manager/checkers.py, lines 56-58): the matching
entries that are regular files of nonzero size; the checker returns
whether that list is non-empty.
-/
def file_notEmpty (fs : FS) (folder filename : String) : Bool :=
  ((fs.glob (osPathJoin folder filename)).filter
    (fun entry => fs.isFile entry && fs.size entry != 0)).length > 0

end Hateno.Checkers

/- -------------------------------------------------------------------
   src/src/hateno/job.py, class Message (wire framing)
   ------------------------------------------------------------------- -/

namespace Hateno.Job

/-
struct.pack of the format with a big-endian unsigned 2-byte field:
defined for 0..65535 and raises struct.error beyond, modeled by none.
-/
def packU16BE (n : Nat) : Option (List Nat) :=
  if n ≤ 65535 then some [n / 256, n % 256] else none

/-
Message._queueMessage (src/src/hateno/job.py, lines 480-490): the JSON
content is encoded to bytes, a 2-byte big-endian length header is packed
in front of it, and the frame is appended to the send buffer.  If the
header cannot be packed the message is never framed.
-/
def queueMessage (content : List Nat) : Option (List Nat) :=
  match packU16BE content.length with
  | some header => some (header ++ content)
  | none => none

/-
struct.unpack of the same format applied to the first two buffer bytes.
-/
def unpackU16BE (b0 b1 : Nat) : Nat := 256 * b0 + b1

/-
Message._readContentLength (src/src/hateno/job.py, lines 442-451): once
at least two bytes are buffered, the length is unpacked from the first
two bytes, which are then dropped from the buffer.
-/
def readContentLength (buf : List Nat) : Option (Nat × List Nat) :=
  match buf with
  | b0 :: b1 :: rest => some (unpackU16BE b0 b1, rest)
  | _ => none

end Hateno.Job

/- -------------------------------------------------------------------
   src/manager/manager.py: the Manager catalog
   ------------------------------------------------------------------- -/

namespace Hateno.Manager

open Hateno.HString

/-
Python dict semantics for assignment: an existing key keeps its position
and gets the new value, a new key is appended.
-/
def dictSet {α : Type} : List (String × α) → String → α → List (String × α)
  | [], k, v => [(k, v)]
  | (k', v') :: rest, k, v =>
    if k' = k then (k', v) :: rest else (k', v') :: dictSet rest k v

/- A dict built from a sequence of assignments (dict comprehension). -/
def dictOfPairs {α : Type} (ps : List (String × α)) : List (String × α) :=
  ps.foldl (fun d p => dictSet d p.1 p.2) []

/- dict.update: assign every item of the update in order. -/
def dictUpdate {α : Type} (d upd : List (String × α)) : List (String × α) :=
  upd.foldl (fun d p => dictSet d p.1 p.2) d

/- del d[k]. -/
def dictRemove {α : Type} (d : List (String × α)) (k : String) :
    List (String × α) :=
  d.filter (fun p => p.1 ≠ k)

/- One descriptor of the settings configuration. -/
structure SettingDef where
  name : String
  default : Value

/- One named settings set of the configuration. -/
structure SettingsSetDef where
  set : String
  required : Bool
  settings : List SettingDef

/- One occurrence of a set in the user-provided simulation settings. -/
structure UserSettingsSet where
  set : String
  settings : List (String × Value)

/- A simulation as the manager receives it: destination folder plus
user settings. -/
structure Simulation where
  folder : String
  settings : List UserSettingsSet

/-
Manager.generateSettings (src/manager/manager.py, lines 137-168): for
each configured settings set, build the defaults dict, override it once
per user-supplied occurrence of that set, and emit the default-only
dict when no occurrence was supplied and the set is required.
-/
def generateSettings (config : List SettingsSetDef)
    (settings : List UserSettingsSet) : List (List (String × Value)) :=
  config.foldl (fun full ss =>
    let settingsPairs := dictOfPairs (ss.settings.map (fun s => (s.name, s.default)))
    let valuesSets := (settings.filter (fun u => u.set = ss.set)).map
      (fun u => u.settings)
    let setsToAdd := valuesSets.map (fun vs => dictUpdate settingsPairs vs)
    let setsToAdd :=
      if setsToAdd.isEmpty && ss.required then [settingsPairs] else setsToAdd
    full ++ setsToAdd) []

/- The name of a simulation, as every manager operation derives it:
string.hash(string.fromObject(generateSettings(...))). -/
def simulationName (floatRepr : Rat → String) (config : List SettingsSetDef)
    (sim : Simulation) : String :=
  archiveName floatRepr (generateSettings config sim.settings)

/-
The manager state: the archive files present in the catalog folder and
the in-memory simulations list mapping name to serialized settings.
-/
structure ManagerState where
  archives : Finset String
  list : List (String × String)

/- The catalog errors extract can raise. -/
inductive MgrError where
  | simulationNotFound (name : String)
  | simulationFolderAlreadyExist (folder : String)
  deriving DecidableEq, Repr

/-
One add or delete operation together with the file-system facts that
decide its outcome: whether the simulation source folder exists and
whether the integrity checks pass.
-/
inductive MgrOp where
  | add (sim : Simulation) (folderOk : Bool) (integrityOk : Bool)
  | delete (sim : Simulation)

/-
Manager.add (lines 266-302) and Manager.delete (lines 304-332).  add
raises SimulationFolderNotFoundError or SimulationIntegrityCheckFailedError
before touching anything; on success it compresses the folder into
name.tar.bz2 and records the mapping entry.  delete raises
SimulationNotFoundError when the name is not listed; on success it
unlinks the archive and deletes the entry.  A raised error leaves the
state unchanged.
-/
def applyOp (floatRepr : Rat → String) (config : List SettingsSetDef)
    (st : ManagerState) : MgrOp → ManagerState
  | .add sim folderOk integrityOk =>
    if ¬folderOk then st
    else
      let full := generateSettings config sim.settings
      let settingsStr := fromObject floatRepr full
      let name := HString.hash settingsStr
      if ¬integrityOk then st
      else { archives := insert name st.archives,
             list := dictSet st.list name settingsStr }
  | .delete sim =>
    let name := simulationName floatRepr config sim
    if (st.list.map Prod.fst).contains name then
      { archives := st.archives.erase name, list := dictRemove st.list name }
    else st

def applyOps (floatRepr : Rat → String) (config : List SettingsSetDef)
    (ops : List MgrOp) (st : ManagerState) : ManagerState :=
  ops.foldl (applyOp floatRepr config) st

/- The set of keys of a mapping. -/
def keysOf {α : Type} (l : List (String × α)) : Finset String :=
  (l.map Prod.fst).toFinset

/-
Manager.extract (lines 334-365): derive the name, raise
SimulationNotFoundError when unlisted, raise
SimulationFolderAlreadyExistError when the destination exists, else
create the destination (uncompress and move).  The file-system part is
the set of existing destination paths.
-/
def extract (floatRepr : Rat → String) (config : List SettingsSetDef)
    (st : ManagerState) (existing : Finset String) (sim : Simulation) :
    Finset String × Option MgrError :=
  let name := simulationName floatRepr config sim
  if ¬(st.list.map Prod.fst).contains name then
    (existing, some (.simulationNotFound name))
  else if sim.folder ∈ existing then
    (existing, some (.simulationFolderAlreadyExist sim.folder))
  else (insert sim.folder existing, none)

/-
Manager.batchAction (lines 367-403) specialized to extract as
batchExtract does (lines 439-449): apply extract to every simulation in
order; every raised manager Error is caught and the simulation is
appended to the returned errors list.
-/
def batchExtract (floatRepr : Rat → String) (config : List SettingsSetDef)
    (st : ManagerState) :
    Finset String → List Simulation → Finset String × List Simulation
  | existing, [] => (existing, [])
  | existing, sim :: rest =>
    let step := extract floatRepr config st existing sim
    let tail := batchExtract floatRepr config st step.1 rest
    (tail.1, (match step.2 with | some _ => [sim] | none => []) ++ tail.2)

/-
The simulations whose per-item extraction raised an error, read off the
same sequential run; used to compare batchExtract with the stated
behavior.
-/
def extractErrored (floatRepr : Rat → String) (config : List SettingsSetDef)
    (st : ManagerState) :
    Finset String → List Simulation → List Simulation
  | _, [] => []
  | existing, sim :: rest =>
    let step := extract floatRepr config st existing sim
    (if step.2.isSome then [sim] else []) ++
      extractErrored floatRepr config st step.1 rest

end Hateno.Manager

/- -------------------------------------------------------------------
   src/src/hateno/generator/generator.py
   ------------------------------------------------------------------- -/

namespace Hateno.Generator

open Hateno.Jsonlib

/-
Python str.replace(p, r): scan left to right, replacing non-overlapping
occurrences of p.  The pattern used below is the nonempty "%k"; the
empty-pattern behavior of str.replace is not modeled.
-/
def replaceAll (p r : List Char) : List Char → List Char
  | [] => []
  | c :: rest =>
    if h : p ≠ [] ∧ p.isPrefixOf (c :: rest) then
      r ++ replaceAll p r ((c :: rest).drop p.length)
    else c :: replaceAll p r rest
termination_by s => s.length
decreasing_by
  · have hp : 0 < p.length := List.length_pos.mpr h.1
    simp only [List.length_drop, List.length_cons]
    omega
  · simp only [List.length_cons]
    omega

/-
The number of occurrences str.replace replaces, along the same scan.
-/
def countOcc (p : List Char) : List Char → Nat
  | [] => 0
  | c :: rest =>
    if h : p ≠ [] ∧ p.isPrefixOf (c :: rest) then
      1 + countOcc p ((c :: rest).drop p.length)
    else countOcc p rest
termination_by s => s.length
decreasing_by
  · have hp : 0 < p.length := List.length_pos.mpr h.1
    simp only [List.length_drop, List.length_cons]
    omega
  · simp only [List.length_cons]
    omega

/-
str(k) for a natural number: its decimal digits.
-/
def natRepr (n : Nat) : List Char :=
  if n = 0 then ['0'] else (Nat.digits 10 n).reverse.map Nat.digitChar

/- A character string.Template treats as part of an identifier. -/
def isIdentChar (c : Char) : Bool := c.isAlpha || c.isDigit || c = '_'

/-
string.Template(content).safe_substitute(LOG_FILENAME = v): replace
every $LOG_FILENAME whose identifier ends there and every
$-brace-LOG_FILENAME-brace by v, turn $$ into $, and leave any other
$-construct verbatim.
-/
def substLog (v : List Char) : List Char → List Char
  | [] => []
  | c :: rest =>
    if c = '$' then
      if rest.take 1 = ['$'] then '$' :: substLog v (rest.drop 1)
      else if rest.take 14 = "\x7bLOG_FILENAME\x7d".toList then
        v ++ substLog v (rest.drop 14)
      else if rest.take 12 = "LOG_FILENAME".toList ∧
          isIdentChar (rest.getD 12 ' ') = false then
        v ++ substLog v (rest.drop 12)
      else '$' :: substLog v rest
    else c :: substLog v rest
termination_by s => s.length
decreasing_by
  all_goals simp only [List.length_drop, List.length_cons]
  all_goals omega

/- The generator recipe values the claims need. -/
structure GenConfig where
  n_exec : Nat
  log_filename : String
  launch_filename : String

/- The per-worker expanded log paths: log_filename with %k replaced by
the worker index. -/
def logPaths (cfg : GenConfig) (nSims : Nat) : List (List Char) :=
  (List.range (min cfg.n_exec nSims)).map
    (fun k => replaceAll "%k".toList (natRepr k) cfg.log_filename.data)

/-
Generator._replaceExecBlock (src/src/hateno/generator/generator.py,
lines 139-158): one copy of the inner block per worker index
k < min(n_exec, number of pending simulations), each with $LOG_FILENAME
substituted by the %k-expanded log filename; the copies are joined.
-/
def execBlocks (cfg : GenConfig) (nSims : Nat) (content : List Char) :
    List (List Char) :=
  (List.range (min cfg.n_exec nSims)).map
    (fun k => substLog (replaceAll "%k".toList (natRepr k) cfg.log_filename.data)
      content)

def replaceExecBlock (cfg : GenConfig) (nSims : Nat) (content : List Char) :
    List Char :=
  (execBlocks cfg nSims content).flatten

/-
The regex substitution of generate (line 202) on a skeleton whose single
exec region splits it into pre ++ content ++ post.  The later uniform
Template pass over the recipe variables (lines 204-213) is not involved
in the claims settled here.
-/
def renderScript (cfg : GenConfig) (nSims : Nat)
    (pre content post : List Char) : List Char :=
  pre ++ replaceExecBlock cfg nSims content ++ post

/-
jsonfiles.write of the command-line list (src/utils/jsonfiles.py):
json.dump with indent 4 and item separator a comma.
-/
def dumpsStrList (l : List String) : String :=
  match l with
  | [] => "[]"
  | _ => "[\n" ++ joinSep ",\n" (l.map (fun s => "    " ++ quoteJson s)) ++ "\n]"

/-
Generator.command_lines (lines 85-96): the rendered command line of each
pending simulation, in list order.  The per-simulation rendering
Simulation.command_line is abstracted by cmdOf.
-/
def command_lines {σ : Type} (cmdOf : σ → String) (pending : List σ) :
    List String :=
  pending.map cmdOf

/-
Generator.add (lines 61-76): adding a list appends each simulation in
order to the pending list.
-/
def addSims {σ : Type} (pending : List σ) (sims : List σ) : List σ :=
  pending ++ sims

inductive GenError where
  | emptyList
  | destinationFolderExists
  deriving DecidableEq, Repr

/- What generate writes: command_lines.json and the launcher script. -/
structure GenOutput where
  commandLinesJson : String
  blocks : List (List Char)
  script : List Char

/-
Generator.generate (lines 160-221): raise EmptyListError on an empty
pending list, DestinationFolderExistsError when the destination exists
and empty_dest is false; otherwise write command_lines.json and the
rendered launcher.
-/
def generate {σ : Type} (cfg : GenConfig) (cmdOf : σ → String)
    (pending : List σ) (destExists emptyDest : Bool)
    (pre content post : List Char) : Except GenError GenOutput :=
  if pending.isEmpty then .error .emptyList
  else if destExists && !emptyDest then .error .destinationFolderExists
  else .ok ⟨dumpsStrList (command_lines cmdOf pending),
            execBlocks cfg pending.length content,
            renderScript cfg pending.length pre content post⟩

end Hateno.Generator

/- -------------------------------------------------------------------
   src/src/hateno/job/server.py and src/src/hateno/job/client.py:
   the command-line dispatch protocol.

   The server is a single-threaded selector loop; each connected client
   has at most one request in flight, so a protocol run is an arbitrary
   interleaving of atomically processed client requests.  A config
   records the server cursor (the number of processed requests), the
   in-memory log, the response counters, and each client's protocol
   state; the step relation picks any client with a pending request and
   processes it as JobServer._processRequest does.
   ------------------------------------------------------------------- -/

namespace Hateno.JobProto

/-
The state of one JobClient (client.py, lines 46-103): it opens with a
queued next request; after a non-null response it executes the command
and queues a log request carrying the outcome; after a null response it
closes.
-/
inductive CState (α : Type) where
  | waitingNext : CState α
  | waitingLog (entry : α) : CState α
  | done : CState α

def isNext {α : Type} : CState α → Bool
  | .waitingNext => true
  | _ => false

def isLog {α : Type} : CState α → Bool
  | .waitingLog _ => true
  | _ => false

def isDone {α : Type} : CState α → Bool
  | .done => true
  | _ => false

/-
The protocol configuration: reqCount is the number of requests the
server has processed (its cursor starts at -1 and is pre-incremented, so
it equals reqCount - 1); log is JobServer._log; nonNull and nullSent
count the command_line responses by kind.
-/
structure Config (α : Type) where
  reqCount : Nat
  log : List α
  nonNull : Nat
  nullSent : Nat
  clients : List (CState α)

/- C clients, each having sent its initial next request. -/
def initConfig (α : Type) (C : Nat) : Config α :=
  ⟨0, [], 0, 0, List.replicate C .waitingNext⟩

/-
JobServer._processRequest and _sendNextCommandLine (server.py, lines
128-167) together with the client reaction (_processResponse): a log
request first appends its content to the log; then the cursor advances
and command_lines[cursor] is sent if in range (the client will execute
it through run and queue a log request), or null is sent (the client
closes).
-/
def processRequest {α : Type} (commandLines : List String) (run : String → α)
    (σ : Config α) (i : Nat) (logEntry : Option α) : Config α :=
  let newLog := match logEntry with
    | some e => σ.log ++ [e]
    | none => σ.log
  match commandLines[σ.reqCount]? with
  | some cmd =>
    { reqCount := σ.reqCount + 1, log := newLog, nonNull := σ.nonNull + 1,
      nullSent := σ.nullSent, clients := σ.clients.set i (.waitingLog (run cmd)) }
  | none =>
    { reqCount := σ.reqCount + 1, log := newLog, nonNull := σ.nonNull,
      nullSent := σ.nullSent + 1, clients := σ.clients.set i .done }

/-
One scheduling step: some client with a pending request is served.
-/
inductive Step {α : Type} (commandLines : List String) (run : String → α) :
    Config α → Config α → Prop
  | next (σ : Config α) (i : Nat) (h : σ.clients[i]? = some .waitingNext) :
      Step commandLines run σ (processRequest commandLines run σ i none)
  | log (σ : Config α) (i : Nat) (e : α)
      (h : σ.clients[i]? = some (.waitingLog e)) :
      Step commandLines run σ (processRequest commandLines run σ i (some e))

/- The run invariant relating cursor, log, counters and client states. -/
structure Inv {α : Type} (commandLines : List String) (C : Nat)
    (σ : Config α) : Prop where
  total : σ.clients.length = C
  reqEq : σ.reqCount = (C - σ.clients.countP isNext) + σ.log.length
  nonNullEq : σ.nonNull = min σ.reqCount commandLines.length
  midEq : min σ.reqCount commandLines.length =
    σ.log.length + σ.clients.countP isLog
  nullEq : σ.nullSent = σ.clients.countP isDone
  sumEq : σ.clients.countP isNext + σ.clients.countP isLog +
    σ.clients.countP isDone = C

end Hateno.JobProto

/- -------------------------------------------------------------------
   src/src/hateno/maker.py: the Maker run loop.

   The collaborators the loop calls are summarized by an environment
   indexed by the iteration number: which simulations batchExtract fails
   to extract, which destination folders already exist (generate_only
   filter), whether waitForJob is interrupted from the keyboard, the
   boolean waitForJob returns, and the per-simulation registration
   outcomes of downloadSimulations.
   ------------------------------------------------------------------- -/

namespace Hateno.Maker

structure Env (σ : Type) where
  extractErr : Nat → σ → Bool
  folderMissing : Nat → σ → Bool
  interrupt : Nat → Bool
  waitOk : Nat → Bool
  download : Nat → List Bool

/- The maker sub-config options the loop reads (negative limit means
unbounded, as in the source). -/
structure MakerOptions where
  maxCorrupted : Int
  maxFailures : Int
  generateOnly : Bool

/-
The driver state of one run: the unknown-simulations list, both
counters, whether a job log file is pending (_job_log_file is not None),
the paused flag, and gens, an instrumentation counter of GENERATE steps
used to state the iteration bound.
-/
structure MakerState (σ : Type) where
  unknown : List σ
  corruptions : Nat
  failures : Nat
  jobPending : Bool
  paused : Bool
  gens : Nat

/-
Maker.extractSimulations (maker.py, lines 395-407): batchExtract returns
the simulations that raised (the unknown ones); in generate_only mode
those whose destination folder already exists are filtered out.
-/
def extractStep {σ : Type} (env : Env σ) (opts : MakerOptions)
    (requests : List σ) (t : Nat) : List σ :=
  let unknown := requests.filter (fun s => env.extractErr t s)
  if opts.generateOnly then unknown.filter (fun s => env.folderMissing t s)
  else unknown

/-
The budget guard of _runLoop (line 374): stop when a non-negative limit
is exceeded by its counter.
-/
def guardStop (opts : MakerOptions) (c f : Nat) : Bool :=
  (decide (0 ≤ opts.maxCorrupted) && decide (opts.maxCorrupted < (c : Int))) ||
  (decide (0 ≤ opts.maxFailures) && decide (opts.maxFailures < (f : Int)))

/-
Maker.downloadSimulations (lines 476-534): success starts true and is
set false whenever a simulation fails to register
(SimulationFolderNotFoundError or SimulationIntegrityCheckFailedError,
or a failed integrity check in generate_only mode); so the result is
true exactly when every outcome is good.
-/
def downloadSimulations (outcomes : List Bool) : Bool :=
  outcomes.all (fun b => b)

/-
The tail of _runLoop (lines 379-393): waitForJob inside a
KeyboardInterrupt handler (an interrupt pauses the Maker and breaks the
loop), the failures counter incremented when waitForJob returns false,
the corruptions counter incremented when downloadSimulations returns
false, then the scripts are deleted and the loop continues.  waitForJob
resets _job_log_file to None before returning.
-/
def waitDownload {σ : Type} (env : Env σ) (t : Nat) (s : MakerState σ) :
    MakerState σ × Bool :=
  if env.interrupt t then ({ s with paused := true }, false)
  else
    let s1 := { s with jobPending := false }
    let s2 := if env.waitOk t then s1 else { s1 with failures := s1.failures + 1 }
    let s3 := if downloadSimulations (env.download t) then s2
      else { s2 with corruptions := s2.corruptions + 1 }
    (s3, true)

/-
Maker._runLoop (lines 358-393): when no job log file is pending, extract
(stop when nothing is unknown), check the budgets (stop when exceeded),
then generate the scripts (gens counts these GENERATE steps) and fall
into the wait/download tail; when a log file is pending (a resumed run)
go to the tail directly.
-/
def runIter {σ : Type} (env : Env σ) (opts : MakerOptions) (requests : List σ)
    (t : Nat) (s : MakerState σ) : MakerState σ × Bool :=
  if s.jobPending = false then
    let unknown := extractStep env opts requests t
    let s1 := { s with unknown := unknown }
    if unknown.isEmpty then (s1, false)
    else if guardStop opts s1.corruptions s1.failures then (s1, false)
    else
      waitDownload env t { s1 with jobPending := true, gens := s1.gens + 1 }
  else waitDownload env t s

/-
The while loop of run (lines 348-349), with fuel bounding the number of
_runLoop calls evaluated; none means the loop was still running when the
fuel ran out.
-/
def runFrom {σ : Type} (env : Env σ) (opts : MakerOptions) (requests : List σ) :
    Nat → Nat → MakerState σ → Option (MakerState σ)
  | _, 0, _ => none
  | t, Nat.succ fuel, s =>
    match runIter env opts requests t s with
    | (s', true) => runFrom env opts requests (t + 1) fuel s'
    | (s', false) => some s'

/- The state at the top of run (lines 320-349) with default counters. -/
def initState (σ : Type) : MakerState σ := ⟨[], 0, 0, false, false, 0⟩

def run {σ : Type} (env : Env σ) (opts : MakerOptions) (requests : List σ)
    (fuel : Nat) : Option (MakerState σ) :=
  runFrom env opts requests 0 fuel (initState σ)

/- Concrete environments used to exercise the run loop: one where the
single request extracts at once, and one where the wait fails and one
registration fails. -/
def env0 : Env Unit :=
  ⟨fun _ _ => false, fun _ _ => false, fun _ => false, fun _ => true, fun _ => []⟩

def opts0 : MakerOptions := ⟨0, 0, false⟩

def envC4 : Env Unit :=
  ⟨fun _ _ => false, fun _ _ => false, fun _ => false, fun _ => false,
   fun _ => [false]⟩

end Hateno.Maker

/- ===================================================================
   Theorems
   =================================================================== -/

/- ------------------------- C1: identity ------------------------- -/

namespace Hateno.HString

open Hateno.Jsonlib

theorem sortKeys_eq_of_perm (m₁ m₂ : List (String × Value)) (hp : m₁.Perm m₂)
    (hnd : (m₁.map Prod.fst).Nodup) : sortKeys m₁ = sortKeys m₂ := by
  have htrans : ∀ a b c : String × Value,
      keyLE a b = true → keyLE b c = true → keyLE a c = true := by
    intro a b c hab hbc
    simp only [keyLE, decide_eq_true_eq] at *
    exact le_trans hab hbc
  have htotal : ∀ a b : String × Value, (keyLE a b || keyLE b a) = true := by
    intro a b
    simp only [keyLE, Bool.or_eq_true, decide_eq_true_eq]
    exact le_total a.1 b.1
  have strictSorted : ∀ m : List (String × Value), (m.map Prod.fst).Nodup →
      List.Pairwise (fun a b : String × Value => a.1 < b.1) (m.mergeSort keyLE) := by
    intro m hm
    have hle := List.sorted_mergeSort htrans htotal m
    have hnds : ((m.mergeSort keyLE).map Prod.fst).Nodup :=
      (((List.mergeSort_perm m keyLE).map Prod.fst).nodup_iff).mpr hm
    have hne : List.Pairwise (fun a b : String × Value => a.1 ≠ b.1)
        (m.mergeSort keyLE) := List.pairwise_map.mp hnds
    exact (hle.and hne).imp (fun h =>
      lt_of_le_of_ne (by simpa [keyLE] using h.1) h.2)
  have hnd₂ : (m₂.map Prod.fst).Nodup := ((hp.map Prod.fst).nodup_iff).mp hnd
  have perm : (m₁.mergeSort keyLE).Perm (m₂.mergeSort keyLE) :=
    (List.mergeSort_perm m₁ keyLE).trans
      (hp.trans (List.mergeSort_perm m₂ keyLE).symm)
  haveI : IsAntisymm (String × Value) (fun a b => a.1 < b.1) :=
    ⟨fun a b h1 h2 => absurd h2 (lt_asymm h1)⟩
  exact List.eq_of_perm_of_sorted perm (strictSorted m₁ hnd) (strictSorted m₂ hnd₂)

theorem dumpsMap_list_congr (floatRepr : Rat → String)
    (s₁ s₂ : List (List (String × Value)))
    (h : List.Forall₂ (fun a b => a.Perm b ∧ (a.map Prod.fst).Nodup) s₁ s₂) :
    List.map (dumpsMap floatRepr) s₁ = List.map (dumpsMap floatRepr) s₂ := by
  induction h with
  | nil => rfl
  | cons hab _ ih =>
    simp only [List.map_cons, ih, List.cons.injEq]
    exact ⟨by unfold dumpsMap; rw [sortKeys_eq_of_perm _ _ hab.1 hab.2], trivial⟩

theorem dumpsSettings_congr (floatRepr : Rat → String)
    (s₁ s₂ : List (List (String × Value)))
    (h : List.Forall₂ (fun a b => a.Perm b ∧ (a.map Prod.fst).Nodup) s₁ s₂) :
    dumpsSettings floatRepr s₁ = dumpsSettings floatRepr s₂ := by
  unfold dumpsSettings
  rw [dumpsMap_list_congr floatRepr s₁ s₂ h]

theorem md5_length (msg : List Nat) : (md5 msg).length = 16 := by
  simp [md5, leBytes]

theorem chunkPairs_flatMap_hexByte (bs : List Nat) :
    (chunkPairs (bs.flatMap hexByte)).length = bs.length := by
  induction bs with
  | nil => rfl
  | cons b rest ih =>
    have hstep : (b :: rest).flatMap hexByte =
        hexDigitChar (b / 16 % 16) :: hexDigitChar (b % 16) ::
          rest.flatMap hexByte := by
      simp [hexByte]
    rw [hstep, chunkPairs, List.length_cons, ih, List.length_cons]

theorem hexDecode_hexdigest_length (bs : List Nat) :
    (hexDecode (hexdigest bs)).length = bs.length := by
  simp [hexDecode, hexdigest, chunkPairs_flatMap_hexByte]

theorem b64encode_length (bs : List Nat) :
    (b64encode bs).length = (bs.length + 2) / 3 * 4 := by
  induction bs using b64encode.induct with
  | case1 => rfl
  | case2 a => simp [b64encode]
  | case3 a b => simp [b64encode]
  | case4 a b c rest ih =>
    simp only [b64encode, List.length_cons, ih]
    omega

theorem getD_mem_or_default {α : Type} (l : List α) (n : Nat) (d : α) :
    l.getD n d ∈ l ∨ l.getD n d = d := by
  rcases h : l[n]? with _ | x
  · right
    simp [List.getD, h]
  · left
    have hx : l.getD n d = x := by simp [List.getD, h]
    rw [hx]
    exact List.getElem?_mem h

theorem urlsafe_b64Char (n : Nat) :
    isUrlsafeChar (urlsafeChar (b64Char n)) = true := by
  rcases getD_mem_or_default b64Table n 'A' with h | h
  · revert h
    unfold b64Char at *
    generalize b64Table.getD n 'A' = c
    intro h
    revert h c
    decide
  · unfold b64Char
    rw [h]
    decide

theorem b64_dropPad_mem (bs : List Nat) :
    ∀ c ∈ (b64encode bs).dropLast.dropLast, ∃ n, c = b64Char n := by
  induction bs using b64encode.induct with
  | case1 => intro c hc; simp [b64encode] at hc
  | case2 a =>
    intro c hc
    simp only [b64encode, List.dropLast, List.mem_cons, List.not_mem_nil] at hc
    rcases hc with h | h | h
    · exact ⟨_, h⟩
    · exact ⟨_, h⟩
    · exact absurd h (by simp)
  | case3 a b =>
    intro c hc
    simp only [b64encode, List.dropLast, List.mem_cons, List.not_mem_nil] at hc
    rcases hc with h | h | h
    · exact ⟨_, h⟩
    · exact ⟨_, h⟩
    · exact absurd h (by simp)
  | case4 a b c rest ih =>
    intro x hx
    by_cases hr : b64encode rest = []
    · rw [b64encode, hr] at hx
      simp only [List.dropLast, List.mem_cons, List.not_mem_nil, or_false] at hx
      rcases hx with h | h
      · exact ⟨_, h⟩
      · exact ⟨_, h⟩
    · have hsplit : b64encode (a :: b :: c :: rest) =
          [b64Char (a / 4 % 64), b64Char ((a % 4 * 16 + b / 16) % 64),
           b64Char ((b % 16 * 4 + c / 64) % 64), b64Char (c % 64)] ++
          b64encode rest := by
        rw [b64encode]
        rfl
      have hne2 : (b64encode rest).dropLast ≠ [] := by
        have hlen : 4 ≤ (b64encode rest).length := by
          rcases rest with _ | ⟨r, rs⟩
          · exact absurd rfl hr
          · rw [b64encode_length]
            simp only [List.length_cons]
            omega
        have hdl := List.length_dropLast (b64encode rest)
        intro hzz
        rw [hzz] at hdl
        simp at hdl
        omega
      rw [hsplit, List.dropLast_append_of_ne_nil _ hr,
        List.dropLast_append_of_ne_nil _ hne2, List.mem_append] at hx
      rcases hx with h | h
      · simp only [List.mem_cons, List.not_mem_nil, or_false] at h
        rcases h with h | h | h | h
        all_goals exact ⟨_, h⟩
      · exact ih x h

theorem hash_data (s : String) :
    (hash s).data =
      ((b64encode (hexDecode (hexdigest (md5 (strBytes s))))).map
        urlsafeChar).dropLast.dropLast := by
  simp only [hash, codecsB64, List.dropLast_concat]

theorem hash_length (s : String) : (hash s).length = 22 := by
  have h16 : (hexDecode (hexdigest (md5 (strBytes s)))).length = 16 := by
    rw [hexDecode_hexdigest_length, md5_length]
  have h24 : (b64encode (hexDecode (hexdigest (md5 (strBytes s))))).length = 24 := by
    rw [b64encode_length, h16]
  rw [String.length, hash_data]
  rw [List.length_dropLast, List.length_dropLast, List.length_map, h24]

theorem hash_urlsafe (s : String) :
    ∀ c ∈ (hash s).data, isUrlsafeChar c = true := by
  intro c hc
  rw [hash_data] at hc
  rw [← List.map_dropLast, ← List.map_dropLast] at hc
  rcases List.mem_map.mp hc with ⟨c', hc', rfl⟩
  rcases b64_dropPad_mem _ c' hc' with ⟨n, rfl⟩
  exact urlsafe_b64Char n

/-- C1: the archive name is hash(fromObject(canonical settings)), a
deterministic function of the canonical settings that does not depend on
the ordering of keys inside the settings maps (the serialization sorts
keys), and it is a 22-character URL-safe string derived from the MD5
digest of the base64url encoding of the sorted-keys JSON serialization;
two requests with equal canonical settings (up to key order) get the
same name. -/
theorem C1_archive_name (floatRepr : Rat → String)
    (s₁ s₂ : List (List (String × Value)))
    (h : List.Forall₂ (fun a b => a.Perm b ∧ (a.map Prod.fst).Nodup) s₁ s₂) :
    archiveName floatRepr s₁ = hash (fromObject floatRepr s₁) ∧
    archiveName floatRepr s₁ = archiveName floatRepr s₂ ∧
    (archiveName floatRepr s₁).length = 22 ∧
    ∀ c ∈ (archiveName floatRepr s₁).data, isUrlsafeChar c = true := by
  refine ⟨rfl, ?_, hash_length _, hash_urlsafe _⟩
  unfold archiveName fromObject
  rw [dumpsSettings_congr floatRepr s₁ s₂ h]

/-- Witness for C1: two concrete settings lists differing only in the
order of the keys of their single map. -/
theorem C1_archive_name_witness :
    List.Forall₂ (fun a b => a.Perm b ∧ (a.map Prod.fst).Nodup)
      [[("n", Value.vint 2), ("a", Value.vstr "x")]]
      [[("a", Value.vstr "x"), ("n", Value.vint 2)]] ∧
    archiveName (fun _ => "") [[("n", Value.vint 2), ("a", Value.vstr "x")]] =
      archiveName (fun _ => "") [[("a", Value.vstr "x"), ("n", Value.vint 2)]] ∧
    (archiveName (fun _ => "")
      [[("n", Value.vint 2), ("a", Value.vstr "x")]]).length = 22 := by
  have h : List.Forall₂ (fun a b => a.Perm b ∧ (a.map Prod.fst).Nodup)
      [[("n", Value.vint 2), ("a", Value.vstr "x")]]
      [[("a", Value.vstr "x"), ("n", Value.vint 2)]] := by
    refine List.Forall₂.cons ⟨?_, ?_⟩ List.Forall₂.nil
    · exact List.Perm.swap _ _ _
    · decide
  have hc := C1_archive_name (fun _ => "") _ _ h
  exact ⟨h, hc.2.1, hc.2.2.1⟩

end Hateno.HString

/- ------------------------- C8: fixers ------------------------- -/

namespace Hateno.Fixers

/-
Composing the only built-in fixer with itself changes nothing: the float
branch produces an integer, on which the fixer is the identity.
-/
theorem fixer_intFloats_idem (v : Value) :
    fixer_intFloats (fixer_intFloats v) = fixer_intFloats v := by
  cases v with
  | vfloat q =>
    by_cases h : q.den = 1 <;> simp [fixer_intFloats, h]
  | _ => rfl

/-
A chain whose names all resolve applies the built-in fixer repeatedly.
-/
theorem applyFixers_resolved (chain : List String) (v : Value)
    (h : ∀ name ∈ chain, (getFixer name).isSome) :
    applyFixers chain v = .ok (fixer_intFloats^[chain.length] v) := by
  induction chain generalizing v with
  | nil => rfl
  | cons name rest ih =>
    have hname : (getFixer name).isSome := h name (by simp)
    have : name = "intFloats" := by
      by_cases heq : name = "intFloats"
      · exact heq
      · simp [getFixer, heq] at hname
    subst this
    have hrest : ∀ n ∈ rest, (getFixer n).isSome := fun n hn => h n (by simp [hn])
    have step : applyFixers ("intFloats" :: rest) v =
        applyFixers rest (fixer_intFloats v) := rfl
    rw [step, ih _ hrest, List.length_cons, Function.iterate_succ_apply]

/-
Iterating an idempotent function is the same as applying it once.
-/
theorem intFloats_iterate_succ (n : Nat) : ∀ v : Value,
    fixer_intFloats^[n + 1] v = fixer_intFloats v := by
  induction n with
  | zero => intro v; rfl
  | succ k ih =>
    intro v
    rw [Function.iterate_succ_apply (n := k + 1), ih, fixer_intFloats_idem]

/-- C8: for every value, applying the fixer chain built from the
configured fixers (every name resolving in the built-in registry) twice
yields the same result as applying it once, and the built-in
fixer_intFloats is idempotent. -/
theorem C8_fixers_idempotent (chain : List String) (v : Value)
    (h : ∀ name ∈ chain, (getFixer name).isSome) :
    (∃ w, applyFixers chain v = .ok w ∧ applyFixers chain w = .ok w) ∧
    (∀ u, fixer_intFloats (fixer_intFloats u) = fixer_intFloats u) := by
  refine ⟨⟨fixer_intFloats^[chain.length] v, applyFixers_resolved chain v h, ?_⟩,
    fixer_intFloats_idem⟩
  rw [applyFixers_resolved chain _ h]
  cases chain with
  | nil => rfl
  | cons name rest =>
    congr 1
    rw [List.length_cons, intFloats_iterate_succ, intFloats_iterate_succ,
      fixer_intFloats_idem]

/-- Witness for C8 at a concrete chain and value. -/
theorem C8_fixers_idempotent_witness :
    (∀ name ∈ ["intFloats"], (Hateno.Fixers.getFixer name).isSome) ∧
    (∃ w, applyFixers ["intFloats"] (.vfloat 2) = .ok w ∧
      applyFixers ["intFloats"] w = .ok w) ∧
    (∀ u, fixer_intFloats (fixer_intFloats u) = fixer_intFloats u) := by
  have h : ∀ name ∈ ["intFloats"], (Hateno.Fixers.getFixer name).isSome := by
    decide
  exact ⟨h, C8_fixers_idempotent ["intFloats"] (.vfloat 2) h⟩

end Hateno.Fixers

/- ------------------------- C9: checkers ------------------------- -/

namespace Hateno.Checkers

/-- C9: treating the declared output name as a glob pattern, file_notEmpty
returns true exactly when at least one matching entry is a regular file of
nonzero size (empty matches alongside do not matter), and file_exists
returns true exactly when at least one matching entry is a regular file. -/
theorem C9_glob_checkers (fs : FS) (folder filename : String) :
    (file_notEmpty fs folder filename = true ↔
      ∃ entry ∈ fs.glob (osPathJoin folder filename),
        fs.isFile entry = true ∧ fs.size entry ≠ 0) ∧
    (file_exists fs folder filename = true ↔
      ∃ entry ∈ fs.glob (osPathJoin folder filename),
        fs.isFile entry = true) := by
  constructor
  · simp [file_notEmpty, List.length_pos, List.eq_nil_iff_forall_not_mem,
      List.mem_filter]
  · simp [file_exists, List.length_pos, List.eq_nil_iff_forall_not_mem,
      List.mem_filter]

end Hateno.Checkers

/- ------------------------- C10: framing ------------------------- -/

namespace Hateno.Job

/-- C10: a frame body is limited to 65535 bytes by the 2-byte big-endian
header: packing fails (no frame is queued) for longer bodies, succeeds
with a 2-byte header for shorter ones, and any header read from received
bytes denotes a length of at most 65535. -/
theorem C10_frame_length_bound :
    (∀ content : List Nat, 65535 < content.length →
      queueMessage content = none) ∧
    (∀ content : List Nat, content.length ≤ 65535 →
      queueMessage content =
        some ([content.length / 256, content.length % 256] ++ content)) ∧
    (∀ buf : List Nat, ∀ len : Nat, ∀ rest : List Nat,
      (∀ b ∈ buf, b < 256) → readContentLength buf = some (len, rest) →
      len ≤ 65535) := by
  refine ⟨?_, ?_, ?_⟩
  · intro content h
    simp [queueMessage, packU16BE, Nat.not_le_of_lt h]
  · intro content h
    simp [queueMessage, packU16BE, h]
  · intro buf len rest hb hread
    match buf, hread with
    | b0 :: b1 :: tail, hread =>
      have h0 : b0 < 256 := hb b0 (by simp)
      have h1 : b1 < 256 := hb b1 (by simp)
      simp only [readContentLength, Option.some.injEq, Prod.mk.injEq] at hread
      have : len = 256 * b0 + b1 := by
        have := hread.1
        simp [unpackU16BE] at this
        omega
      omega

/-- Witness for C10 at concrete frames. -/
theorem C10_frame_length_bound_witness :
    queueMessage (List.replicate 65536 7) = none ∧
    queueMessage [104, 105] = some [0, 2, 104, 105] ∧
    (∀ b ∈ [255, 255, 3], b < 256) ∧
    (∀ len rest, readContentLength [255, 255, 3] = some (len, rest) →
      len ≤ 65535) := by
  refine ⟨?_, ?_, by decide, ?_⟩
  · exact C10_frame_length_bound.1 (List.replicate 65536 7)
      (by rw [List.length_replicate]; omega)
  · have := C10_frame_length_bound.2.1 [104, 105] (by simp)
    simpa using this
  · intro len rest h
    exact C10_frame_length_bound.2.2 [255, 255, 3] len rest (by decide) h

end Hateno.Job

/- ----------------------- C5, C7: the catalog ----------------------- -/

namespace Hateno.Manager

theorem keysOf_dictSet {α : Type} (l : List (String × α)) (k : String) (v : α) :
    keysOf (dictSet l k v) = insert k (keysOf l) := by
  induction l with
  | nil => rfl
  | cons p rest ih =>
    rcases p with ⟨k', v'⟩
    by_cases h : k' = k
    · subst h
      simp [dictSet, keysOf]
    · simp only [dictSet, if_neg h]
      simp only [keysOf, List.map_cons, List.toFinset_cons] at *
      rw [ih, Finset.Insert.comm]

theorem keysOf_dictRemove {α : Type} (l : List (String × α)) (k : String) :
    keysOf (dictRemove l k) = (keysOf l).erase k := by
  ext x
  simp only [keysOf, dictRemove, List.mem_toFinset, List.mem_map,
    List.mem_filter, Finset.mem_erase]
  constructor
  · rintro ⟨p, ⟨hp, hne⟩, rfl⟩
    simp only [decide_eq_true_eq] at hne
    exact ⟨hne, ⟨p, hp, rfl⟩⟩
  · rintro ⟨hne, p, hp, rfl⟩
    exact ⟨p, ⟨hp, by simpa using hne⟩, rfl⟩

theorem applyOp_invariant (floatRepr : Rat → String)
    (config : List SettingsSetDef) (st : ManagerState) (op : MgrOp)
    (h : keysOf st.list = st.archives) :
    keysOf (applyOp floatRepr config st op).list =
      (applyOp floatRepr config st op).archives := by
  cases op with
  | add sim folderOk integrityOk =>
    cases folderOk <;> cases integrityOk <;>
      simp [applyOp, keysOf_dictSet, h]
  | delete sim =>
    by_cases hc : (st.list.map Prod.fst).contains
        (simulationName floatRepr config sim) = true
    · simp only [applyOp]
      rw [if_pos hc]
      simp [keysOf_dictRemove, h]
    · simp only [applyOp]
      rw [if_neg hc]
      exact h

/-- C7: after any sequence of add and delete operations, each completing
normally or raising one of its declared errors, the set of archive files
in the catalog folder equals the set of keys of the simulations list. -/
theorem C7_catalog_invariant (floatRepr : Rat → String)
    (config : List SettingsSetDef) (ops : List MgrOp) (st₀ : ManagerState)
    (h₀ : keysOf st₀.list = st₀.archives) :
    keysOf (applyOps floatRepr config ops st₀).list =
      (applyOps floatRepr config ops st₀).archives := by
  induction ops generalizing st₀ with
  | nil => exact h₀
  | cons op rest ih =>
    exact ih _ (applyOp_invariant floatRepr config st₀ op h₀)

/-- Witness for C7: a fresh catalog, one add followed by one delete. -/
theorem C7_catalog_invariant_witness :
    keysOf (⟨∅, []⟩ : ManagerState).list = (⟨∅, []⟩ : ManagerState).archives ∧
    keysOf (applyOps (fun _ => "") [⟨"s", true, [⟨"n", Value.vint 0⟩]⟩]
        [.add ⟨"f", []⟩ true true, .delete ⟨"f", []⟩] ⟨∅, []⟩).list =
      (applyOps (fun _ => "") [⟨"s", true, [⟨"n", Value.vint 0⟩]⟩]
        [.add ⟨"f", []⟩ true true, .delete ⟨"f", []⟩] ⟨∅, []⟩).archives := by
  have h₀ : keysOf (⟨∅, []⟩ : ManagerState).list =
      (⟨∅, []⟩ : ManagerState).archives := by
    simp [keysOf]
  exact ⟨h₀, C7_catalog_invariant (fun _ => "")
    [⟨"s", true, [⟨"n", Value.vint 0⟩]⟩]
    [.add ⟨"f", []⟩ true true, .delete ⟨"f", []⟩] ⟨∅, []⟩ h₀⟩

/-- C5 counterexample: a listed simulation whose destination folder
already exists raises SimulationFolderAlreadyExistError, and batchExtract
still stores it in the returned errors list, since batchAction catches
every manager Error alike; the claim predicts it appears in neither. -/
theorem C5_batchExtract_counterexample :
    (batchExtract (fun _ => "") [⟨"s", true, [⟨"n", Value.vint 0⟩]⟩]
        ⟨∅, [(simulationName (fun _ => "") [⟨"s", true, [⟨"n", Value.vint 0⟩]⟩]
          ⟨"f", []⟩, "x")]⟩ {"f"} [⟨"f", []⟩]).2 = [⟨"f", []⟩] ∧
    (extract (fun _ => "") [⟨"s", true, [⟨"n", Value.vint 0⟩]⟩]
        ⟨∅, [(simulationName (fun _ => "") [⟨"s", true, [⟨"n", Value.vint 0⟩]⟩]
          ⟨"f", []⟩, "x")]⟩ {"f"} ⟨"f", []⟩).2 =
      some (.simulationFolderAlreadyExist "f") := by
  constructor
  · simp [batchExtract, extract]
  · simp [extract]

/-- C5 (amended): batchExtract returns exactly the simulations whose
per-item extraction raised a manager error, storing SimulationNotFound
and SimulationFolderAlreadyExist alike; no exception propagates, and the
returned list is a sublist of the input. -/
theorem C5_batchExtract_stores_all_errors (floatRepr : Rat → String)
    (config : List SettingsSetDef) (st : ManagerState)
    (existing : Finset String) (sims : List Simulation) :
    (batchExtract floatRepr config st existing sims).2 =
      extractErrored floatRepr config st existing sims ∧
    (batchExtract floatRepr config st existing sims).2.Sublist sims := by
  induction sims generalizing existing with
  | nil => exact ⟨rfl, List.Sublist.refl _⟩
  | cons sim rest ih =>
    rcases ih (extract floatRepr config st existing sim).1 with ⟨ihEq, ihSub⟩
    constructor
    · simp only [batchExtract, extractErrored, ihEq]
      rcases h : (extract floatRepr config st existing sim).2 with _ | e <;> simp [h]
    · simp only [batchExtract]
      rcases h : (extract floatRepr config st existing sim).2 with _ | e
      · simpa using ihSub.cons sim
      · simpa using ihSub.cons₂ sim

end Hateno.Manager

/- ----------------------- C6: the generator ----------------------- -/

namespace Hateno.Generator

theorem replaceAll_length (p r : List Char) (s : List Char) :
    (replaceAll p r s).length + countOcc p s * p.length =
      s.length + countOcc p s * r.length := by
  induction s using replaceAll.induct p r with
  | case1 => simp [replaceAll, countOcc]
  | case2 c rest h ih =>
    rw [replaceAll, countOcc, dif_pos h, dif_pos h]
    have hple : p.length ≤ rest.length + 1 := by
      have := List.IsPrefix.length_le (List.isPrefixOf_iff_prefix.mp h.2)
      simpa using this
    simp only [List.length_drop, List.length_cons] at ih
    simp only [List.length_append, List.length_cons, Nat.add_mul, Nat.one_mul]
    omega
  | case3 c rest h ih =>
    rw [replaceAll, countOcc, dif_neg h, dif_neg h]
    simp only [List.length_cons]
    omega

theorem replaceAll_inj (p x y : List Char) (hlen : x.length = y.length) :
    ∀ s, 1 ≤ countOcc p s → replaceAll p x s = replaceAll p y s → x = y := by
  intro s
  induction s using replaceAll.induct p x with
  | case1 =>
    intro hocc _
    simp [countOcc] at hocc
  | case2 c rest hpre ih =>
    intro _ h
    rw [replaceAll, dif_pos hpre] at h
    rw [replaceAll, dif_pos hpre] at h
    exact List.append_inj_left h hlen
  | case3 c rest hpre ih =>
    intro hocc h
    rw [countOcc, dif_neg hpre] at hocc
    rw [replaceAll, dif_neg hpre] at h
    rw [replaceAll, dif_neg hpre] at h
    injection h with _ h2
    exact ih hocc h2

theorem digitChar_inj_lt10 :
    ∀ a < 10, ∀ b < 10, Nat.digitChar a = Nat.digitChar b → a = b := by
  decide

theorem map_digitChar_inj : ∀ (l₁ l₂ : List Nat),
    (∀ x ∈ l₁, x < 10) → (∀ x ∈ l₂, x < 10) →
    l₁.map Nat.digitChar = l₂.map Nat.digitChar → l₁ = l₂ := by
  intro l₁
  induction l₁ with
  | nil =>
    intro l₂ _ _ h
    cases l₂ with
    | nil => rfl
    | cons b t => simp at h
  | cons a t ih =>
    intro l₂ h₁ h₂ h
    cases l₂ with
    | nil => simp at h
    | cons b t₂ =>
      simp only [List.map_cons, List.cons.injEq] at h
      have ha : a < 10 := h₁ a (by simp)
      have hb : b < 10 := h₂ b (by simp)
      have : a = b := digitChar_inj_lt10 a ha b hb h.1
      rw [this,
        ih t₂ (fun x hx => h₁ x (by simp [hx])) (fun x hx => h₂ x (by simp [hx])) h.2]

theorem natRepr_inj : Function.Injective natRepr := by
  have toZero : ∀ n : Nat,
      ['0'] = (Nat.digits 10 n).reverse.map Nat.digitChar → n = 0 := by
    intro n h
    have h0 : [(0 : Nat)] = (Nat.digits 10 n).reverse :=
      map_digitChar_inj [0] _ (by simp)
        (fun x hx => Nat.digits_lt_base (by omega) (List.mem_reverse.mp hx))
        (by exact h)
    have hd : Nat.digits 10 n = [0] := by
      have := congrArg List.reverse h0
      simpa using this.symm
    have := Nat.ofDigits_digits 10 n
    rw [hd] at this
    simpa [Nat.ofDigits] using this.symm
  intro a b h
  unfold natRepr at h
  by_cases ha : a = 0 <;> by_cases hb : b = 0
  · rw [ha, hb]
  · rw [if_pos ha, if_neg hb] at h
    exact absurd (toZero b h) hb
  · rw [if_neg ha, if_pos hb] at h
    exact absurd (toZero a h.symm) ha
  · rw [if_neg ha, if_neg hb] at h
    have hrev := congrArg List.reverse h
    simp only [List.reverse_reverse, ← List.map_reverse] at hrev
    have hrev2 : (Nat.digits 10 a).map Nat.digitChar =
        (Nat.digits 10 b).map Nat.digitChar := by
      have := congrArg List.reverse hrev
      simpa using this
    have hdig : Nat.digits 10 a = Nat.digits 10 b :=
      map_digitChar_inj _ _
        (fun x hx => Nat.digits_lt_base (by omega) hx)
        (fun x hx => Nat.digits_lt_base (by omega) hx) hrev2
    have := congrArg (Nat.ofDigits 10) hdig
    rwa [Nat.ofDigits_digits, Nat.ofDigits_digits] at this

theorem logPaths_nodup (logfn : List Char) (p : List Char)
    (hocc : 1 ≤ countOcc p logfn) (m : Nat) :
    ((List.range m).map (fun k => replaceAll p (natRepr k) logfn)).Nodup := by
  apply List.Nodup.map _ (List.nodup_range m)
  intro a b h
  have h' : replaceAll p (natRepr a) logfn = replaceAll p (natRepr b) logfn := h
  by_cases hlen : (natRepr a).length = (natRepr b).length
  · exact natRepr_inj (replaceAll_inj p (natRepr a) (natRepr b) hlen logfn hocc h')
  · exfalso
    have la := replaceAll_length p (natRepr a) logfn
    have lb := replaceAll_length p (natRepr b) logfn
    rw [h'] at la
    have hmul : countOcc p logfn * (natRepr a).length =
        countOcc p logfn * (natRepr b).length := by
      omega
    exact hlen (Nat.eq_of_mul_eq_mul_left (lt_of_lt_of_le zero_lt_one hocc) hmul)

/-- C6: for a non-empty pending list of n simulations and a recipe with
worker count n_exec = k whose log filename carries the %k placeholder,
generate succeeds and produces a launcher whose exec region is exactly
the min(n,k) copies of the inner block, the copy for worker i carrying
$LOG_FILENAME substituted by the log filename with %k replaced by i, the
expanded log paths pairwise distinct; command_lines.json is the ordered
JSON array of the rendered command lines, and adding simulations appends
their command lines in order. -/
theorem C6_generator {σ : Type} (cfg : GenConfig) (cmdOf : σ → String)
    (pending : List σ) (destExists emptyDest : Bool)
    (pre content post : List Char)
    (hne : pending ≠ [])
    (hd : destExists = true → emptyDest = true)
    (hocc : 1 ≤ countOcc "%k".toList cfg.log_filename.data) :
    ∃ out, generate cfg cmdOf pending destExists emptyDest pre content post =
        .ok out ∧
      out.blocks.length = min cfg.n_exec pending.length ∧
      out.blocks = (logPaths cfg pending.length).map (fun v => substLog v content) ∧
      (logPaths cfg pending.length).Nodup ∧
      out.script = pre ++ out.blocks.flatten ++ post ∧
      out.commandLinesJson = dumpsStrList (pending.map cmdOf) ∧
      ∀ (prev more : List σ), command_lines cmdOf (addSims prev more) =
        command_lines cmdOf prev ++ command_lines cmdOf more := by
  refine ⟨⟨dumpsStrList (command_lines cmdOf pending),
    execBlocks cfg pending.length content,
    renderScript cfg pending.length pre content post⟩, ?_, ?_, ?_, ?_, rfl, rfl, ?_⟩
  · unfold generate
    rw [if_neg (by simpa using hne), if_neg ?_]
    cases destExists
    · simp
    · simp [hd rfl]
  · simp [execBlocks]
  · simp [execBlocks, logPaths, List.map_map]
  · exact logPaths_nodup _ _ hocc _
  · intro prev more
    simp [command_lines, addSims]

/-- Witness for C6 at a one-simulation pending list and the recipe
log-%k.txt with two workers. -/
theorem C6_generator_witness :
    (["c1"] : List String) ≠ [] ∧
    1 ≤ countOcc "%k".toList
      (GenConfig.mk 2 "log-%k.txt" "launch.sh").log_filename.data ∧
    ∃ out, generate (GenConfig.mk 2 "log-%k.txt" "launch.sh") id ["c1"] false true
        "A ".toList "X $LOG_FILENAME\n".toList " B".toList = .ok out ∧
      out.blocks.length = min 2 (["c1"] : List String).length := by
  have hocc : 1 ≤ countOcc "%k".toList
      (GenConfig.mk 2 "log-%k.txt" "launch.sh").log_filename.data := by
    simp [countOcc, String.data]
  have h := C6_generator (GenConfig.mk 2 "log-%k.txt" "launch.sh") id ["c1"]
    false true "A ".toList "X $LOG_FILENAME\n".toList " B".toList
    (by simp) (by simp) hocc
  rcases h with ⟨out, h1, h2, hrest⟩
  exact ⟨by simp, hocc, out, h1, h2⟩

end Hateno.Generator

/- ----------------------- C2: the job protocol ----------------------- -/

namespace Hateno.JobProto

theorem countP_set_add {γ : Type} (p : γ → Bool) (l : List γ) (i : Nat)
    (x old : γ) (h : l[i]? = some old) :
    (l.set i x).countP p + (if p old then 1 else 0) =
      l.countP p + (if p x then 1 else 0) := by
  induction l generalizing i with
  | nil => simp at h
  | cons a t ih =>
    cases i with
    | zero =>
      simp only [List.getElem?_cons_zero, Option.some.injEq] at h
      subst h
      simp only [List.set]
      rcases hx : p x <;> rcases ho : p a <;>
        simp [List.countP_cons, hx, ho]
    | succ j =>
      simp only [List.getElem?_cons_succ] at h
      simp only [List.set]
      have hih := ih j h
      rcases hx : p x <;> rcases ho : p old <;> rcases ha : p a <;>
        simp [List.countP_cons, hx, ho, ha] at hih ⊢ <;> omega

theorem countP_pos_of_getElem {γ : Type} (p : γ → Bool) (l : List γ) (i : Nat)
    (c : γ) (h : l[i]? = some c) (hp : p c = true) : 1 ≤ l.countP p := by
  have hm : c ∈ l := List.getElem?_mem h
  exact List.countP_pos_iff.mpr ⟨c, hm, hp⟩

theorem replicate_countP_next (α : Type) (C : Nat) :
    (List.replicate C (CState.waitingNext (α := α))).countP isNext = C := by
  have h : ∀ c ∈ List.replicate C (CState.waitingNext (α := α)),
      isNext c = true := by
    intro c hc
    rw [List.eq_of_mem_replicate hc]
    rfl
  rw [List.countP_eq_length.mpr h, List.length_replicate]

theorem replicate_countP_log (α : Type) (C : Nat) :
    (List.replicate C (CState.waitingNext (α := α))).countP isLog = 0 := by
  apply List.countP_eq_zero.mpr
  intro c hc
  rw [List.eq_of_mem_replicate hc]
  simp [isLog]

theorem replicate_countP_done (α : Type) (C : Nat) :
    (List.replicate C (CState.waitingNext (α := α))).countP isDone = 0 := by
  apply List.countP_eq_zero.mpr
  intro c hc
  rw [List.eq_of_mem_replicate hc]
  simp [isDone]

theorem inv_init (α : Type) (commandLines : List String) (C : Nat) :
    Inv commandLines C (initConfig α C) := by
  refine ⟨by simp [initConfig], ?_, ?_, ?_, ?_, ?_⟩
  · simp [initConfig, replicate_countP_next]
  · simp [initConfig]
  · simp [initConfig, replicate_countP_log]
  · simp [initConfig, replicate_countP_done]
  · simp [initConfig, replicate_countP_next, replicate_countP_log,
      replicate_countP_done]

theorem inv_step {α : Type} (cl : List String) (run : String → α) (C : Nat)
    (σ σ' : Config α) (hinv : Inv cl C σ) (hstep : Step cl run σ σ') :
    Inv cl C σ' := by
  obtain ⟨total, reqEq, nonNullEq, midEq, nullEq, sumEq⟩ := hinv
  cases hstep with
  | next i h =>
    have hposN : 1 ≤ σ.clients.countP isNext :=
      countP_pos_of_getElem _ _ i _ h rfl
    have hleN : σ.clients.countP isNext ≤ C := by
      rw [← total]
      exact List.countP_le_length _
    rcases hcmd : cl[σ.reqCount]? with _ | cmd
    · have hge : cl.length ≤ σ.reqCount := by simpa using hcmd
      have hN := countP_set_add isNext σ.clients i CState.done _ h
      have hL := countP_set_add isLog σ.clients i CState.done _ h
      have hD := countP_set_add isDone σ.clients i CState.done _ h
      simp [isNext, isLog, isDone] at hN hL hD
      refine ⟨?_, ?_, ?_, ?_, ?_, ?_⟩ <;>
        simp only [processRequest, hcmd, List.length_set] <;> omega
    · have hlt : σ.reqCount < cl.length :=
        (List.getElem?_eq_some.mp hcmd).1
      have hN := countP_set_add isNext σ.clients i (CState.waitingLog (run cmd)) _ h
      have hL := countP_set_add isLog σ.clients i (CState.waitingLog (run cmd)) _ h
      have hD := countP_set_add isDone σ.clients i (CState.waitingLog (run cmd)) _ h
      simp [isNext, isLog, isDone] at hN hL hD
      refine ⟨?_, ?_, ?_, ?_, ?_, ?_⟩ <;>
        simp only [processRequest, hcmd, List.length_set] <;> omega
  | log i e h =>
    have hposL : 1 ≤ σ.clients.countP isLog :=
      countP_pos_of_getElem _ _ i _ h rfl
    have hleL : σ.clients.countP isLog ≤ C := by
      rw [← total]
      exact List.countP_le_length _
    rcases hcmd : cl[σ.reqCount]? with _ | cmd
    · have hge : cl.length ≤ σ.reqCount := by simpa using hcmd
      have hN := countP_set_add isNext σ.clients i CState.done _ h
      have hL := countP_set_add isLog σ.clients i CState.done _ h
      have hD := countP_set_add isDone σ.clients i CState.done _ h
      simp [isNext, isLog, isDone] at hN hL hD
      refine ⟨?_, ?_, ?_, ?_, ?_, ?_⟩ <;>
        simp only [processRequest, hcmd, List.length_set, List.length_append,
          List.length_cons, List.length_nil] <;> omega
    · have hlt : σ.reqCount < cl.length :=
        (List.getElem?_eq_some.mp hcmd).1
      have hN := countP_set_add isNext σ.clients i (CState.waitingLog (run cmd)) _ h
      have hL := countP_set_add isLog σ.clients i (CState.waitingLog (run cmd)) _ h
      have hD := countP_set_add isDone σ.clients i (CState.waitingLog (run cmd)) _ h
      simp [isNext, isLog, isDone] at hN hL hD
      refine ⟨?_, ?_, ?_, ?_, ?_, ?_⟩ <;>
        simp only [processRequest, hcmd, List.length_set, List.length_append,
          List.length_cons, List.length_nil] <;> omega

theorem inv_reach {α : Type} (cl : List String) (run : String → α) (C : Nat)
    (σ : Config α)
    (hreach : Relation.ReflTransGen (Step cl run) (initConfig α C) σ) :
    Inv cl C σ := by
  induction hreach with
  | refl => exact inv_init α cl C
  | tail hsteps hstep ih => exact inv_step cl run C _ _ ih hstep

/-- C2: for every list of N command lines and C clients, C at least one,
each following the client protocol, any reachable configuration in which
all clients have disconnected has exactly N non-null command_line
responses sent, exactly C null responses sent and exactly N entries in
the server's in-memory log. -/
theorem C2_job_protocol {α : Type} (cl : List String) (run : String → α)
    (C : Nat) (hC : 1 ≤ C) (σ : Config α)
    (hreach : Relation.ReflTransGen (Step cl run) (initConfig α C) σ)
    (hdone : ∀ c ∈ σ.clients, c = CState.done) :
    σ.nonNull = cl.length ∧ σ.nullSent = C ∧ σ.log.length = cl.length := by
  have hinv : Inv cl C σ := inv_reach cl run C σ hreach
  obtain ⟨total, reqEq, nonNullEq, midEq, nullEq, sumEq⟩ := hinv
  have hD : σ.clients.countP isDone = σ.clients.length :=
    List.countP_eq_length.mpr (fun c hc => by rw [hdone c hc]; rfl)
  have hN : σ.clients.countP isNext = 0 :=
    List.countP_eq_zero.mpr (fun c hc => by rw [hdone c hc]; simp [isNext])
  have hL : σ.clients.countP isLog = 0 :=
    List.countP_eq_zero.mpr (fun c hc => by rw [hdone c hc]; simp [isLog])
  refine ⟨?_, ?_, ?_⟩ <;> omega

/-- Witness for C2: one command line, one client, the two-step run. -/
theorem C2_job_protocol_witness :
    (1 : Nat) ≤ 1 ∧
    (∀ c ∈ (processRequest ["c"] id
        (processRequest ["c"] id (initConfig String 1) 0 none)
        0 (some "c")).clients, c = CState.done) ∧
    ((processRequest ["c"] id
        (processRequest ["c"] id (initConfig String 1) 0 none)
        0 (some "c")).nonNull = (["c"] : List String).length ∧
      (processRequest ["c"] id
        (processRequest ["c"] id (initConfig String 1) 0 none)
        0 (some "c")).nullSent = 1 ∧
      (processRequest ["c"] id
        (processRequest ["c"] id (initConfig String 1) 0 none)
        0 (some "c")).log.length = (["c"] : List String).length) := by
  have hstep1 : Step ["c"] id (initConfig String 1)
      (processRequest ["c"] id (initConfig String 1) 0 none) :=
    Step.next (initConfig String 1) 0 (by rfl)
  have hstep2 : Step ["c"] id
      (processRequest ["c"] id (initConfig String 1) 0 none)
      (processRequest ["c"] id
        (processRequest ["c"] id (initConfig String 1) 0 none) 0 (some "c")) :=
    Step.log (processRequest ["c"] id (initConfig String 1) 0 none) 0 "c" (by rfl)
  have hreach := Relation.ReflTransGen.tail
    (Relation.ReflTransGen.tail Relation.ReflTransGen.refl hstep1) hstep2
  have hdone : ∀ c ∈ (processRequest ["c"] id
      (processRequest ["c"] id (initConfig String 1) 0 none)
      0 (some "c")).clients, c = CState.done := by
    intro c hc
    simp [processRequest, initConfig] at hc
    exact hc
  exact ⟨le_refl 1, hdone, C2_job_protocol ["c"] id 1 (le_refl 1) _ hreach hdone⟩

end Hateno.JobProto

/- ----------------------- C3, C4: the maker loop ----------------------- -/

namespace Hateno.Maker

theorem extractStep_subset {σ : Type} (env : Env σ) (opts : MakerOptions)
    (requests : List σ) (t : Nat) : extractStep env opts requests t ⊆ requests := by
  intro x hx
  unfold extractStep at hx
  split at hx
  · exact (List.mem_filter.mp (List.mem_filter.mp hx).1).1
  · exact (List.mem_filter.mp hx).1

theorem guardStop_false (opts : MakerOptions) (c f : Nat)
    (hmc : 0 ≤ opts.maxCorrupted) (hmf : 0 ≤ opts.maxFailures)
    (h : guardStop opts c f = false) :
    c ≤ opts.maxCorrupted.toNat ∧ f ≤ opts.maxFailures.toNat := by
  unfold guardStop at h
  simp only [Bool.or_eq_false_iff, Bool.and_eq_false_iff, decide_eq_false_iff_not,
    not_le, not_lt] at h
  rcases h with ⟨h1, h2⟩
  constructor
  · rcases h1 with h1 | h1
    · omega
    · omega
  · rcases h2 with h2 | h2
    · omega
    · omega


theorem runFrom_bounded {σ : Type} (env : Env σ) (opts : MakerOptions)
    (requests : List σ)
    (hmc : 0 ≤ opts.maxCorrupted) (hmf : 0 ≤ opts.maxFailures)
    (hcouple : ∀ t, downloadSimulations (env.download t) = true →
      extractStep env opts requests (t + 1) = []) :
    ∀ fuel t (s : MakerState σ),
      s.jobPending = false →
      s.unknown ⊆ requests →
      1 ≤ fuel →
      opts.maxCorrupted.toNat + opts.maxFailures.toNat + 2 -
        (s.corruptions + s.failures) ≤ fuel →
      ∃ final, runFrom env opts requests t fuel s = some final ∧
        final.unknown ⊆ requests ∧
        final.gens ≤ s.gens + (opts.maxCorrupted.toNat +
          opts.maxFailures.toNat + 1 - (s.corruptions + s.failures)) := by
  intro fuel
  induction fuel with
  | zero =>
    intro t s _ _ h1 _
    omega
  | succ F ih =>
    intro t s hjob hsub _ hfuel
    rcases hemp : (extractStep env opts requests t).isEmpty with _ | _
    case succ.false =>
      rcases hguard : guardStop opts s.corruptions s.failures with _ | _
      case false =>
        obtain ⟨hc, hf⟩ := guardStop_false opts _ _ hmc hmf hguard
        rcases hint : env.interrupt t with _ | _
        case false =>
          rcases hw : env.waitOk t with _ | _ <;>
            rcases hd : downloadSimulations (env.download t) with _ | _
          case false.false =>
            -- wait failure and download failure: both counters increment
            have hiter : runIter env opts requests t s =
                ({ s with
                    unknown := extractStep env opts requests t,
                    jobPending := false, gens := s.gens + 1,
                    failures := s.failures + 1,
                    corruptions := s.corruptions + 1 }, true) := by
              simp [runIter, hjob, hemp, hguard, waitDownload, hint, hw, hd]
            rw [runFrom, hiter]
            have := ih (t + 1)
              { s with
                unknown := extractStep env opts requests t,
                jobPending := false, gens := s.gens + 1,
                failures := s.failures + 1, corruptions := s.corruptions + 1 }
              rfl (extractStep_subset env opts requests t) (by omega) (by simp; omega)
            obtain ⟨final, hrun, hsub2, hgens⟩ := this
            refine ⟨final, hrun, hsub2, ?_⟩
            simp at hgens
            omega
          case false.true =>
            have hiter : runIter env opts requests t s =
                ({ s with
                    unknown := extractStep env opts requests t,
                    jobPending := false, gens := s.gens + 1,
                    failures := s.failures + 1 }, true) := by
              simp [runIter, hjob, hemp, hguard, waitDownload, hint, hw, hd]
            rw [runFrom, hiter]
            have := ih (t + 1)
              { s with
                unknown := extractStep env opts requests t,
                jobPending := false, gens := s.gens + 1,
                failures := s.failures + 1 }
              rfl (extractStep_subset env opts requests t) (by omega) (by simp; omega)
            obtain ⟨final, hrun, hsub2, hgens⟩ := this
            refine ⟨final, hrun, hsub2, ?_⟩
            simp at hgens
            omega
          case true.false =>
            have hiter : runIter env opts requests t s =
                ({ s with
                    unknown := extractStep env opts requests t,
                    jobPending := false, gens := s.gens + 1,
                    corruptions := s.corruptions + 1 }, true) := by
              simp [runIter, hjob, hemp, hguard, waitDownload, hint, hw, hd]
            rw [runFrom, hiter]
            have := ih (t + 1)
              { s with
                unknown := extractStep env opts requests t,
                jobPending := false, gens := s.gens + 1,
                corruptions := s.corruptions + 1 }
              rfl (extractStep_subset env opts requests t) (by omega) (by simp; omega)
            obtain ⟨final, hrun, hsub2, hgens⟩ := this
            refine ⟨final, hrun, hsub2, ?_⟩
            simp at hgens
            omega
          case true.true =>
            -- both steps succeeded: the next extraction finds everything
            have hiter : runIter env opts requests t s =
                ({ s with
                    unknown := extractStep env opts requests t,
                    jobPending := false, gens := s.gens + 1 }, true) := by
              simp [runIter, hjob, hemp, hguard, waitDownload, hint, hw, hd]
            have hF : 1 ≤ F := by omega
            obtain ⟨F', rfl⟩ : ∃ F', F = F' + 1 := ⟨F - 1, by omega⟩
            have hnext : (extractStep env opts requests (t + 1)).isEmpty = true := by
              rw [hcouple t hd]
              rfl
            have hiter2 : runIter env opts requests (t + 1)
                { s with
                  unknown := extractStep env opts requests t,
                  jobPending := false, gens := s.gens + 1 } =
                ({ s with
                    unknown := extractStep env opts requests (t + 1),
                    jobPending := false, gens := s.gens + 1 }, false) := by
              simp [runIter, hnext]
            have hrun : runFrom env opts requests (t + 1) (F' + 1)
                { s with
                  unknown := extractStep env opts requests t,
                  jobPending := false, gens := s.gens + 1 } =
                some { s with
                       unknown := extractStep env opts requests (t + 1),
                       jobPending := false, gens := s.gens + 1 } := by
              rw [runFrom, hiter2]
            rw [runFrom, hiter]
            refine ⟨_, hrun, ?_, ?_⟩
            · show extractStep env opts requests (t + 1) ⊆ requests
              exact extractStep_subset env opts requests (t + 1)
            · show s.gens + 1 ≤ _
              simp
              omega
        case true =>
          -- keyboard interrupt: pause and stop
          have hiter : runIter env opts requests t s =
              ({ s with
                  unknown := extractStep env opts requests t,
                  jobPending := true, gens := s.gens + 1, paused := true }, false) := by
            simp [runIter, hjob, hemp, hguard, waitDownload, hint]
          rw [runFrom, hiter]
          refine ⟨_, rfl, ?_, ?_⟩
          · exact extractStep_subset env opts requests t
          · simp
            omega
      case true =>
        -- a budget is exhausted: stop
        have hiter : runIter env opts requests t s =
            ({ s with unknown := extractStep env opts requests t }, false) := by
          simp [runIter, hjob, hemp, hguard]
        rw [runFrom, hiter]
        refine ⟨_, rfl, extractStep_subset env opts requests t, by simp⟩
    case succ.true =>
      -- nothing is unknown: stop
      have hiter : runIter env opts requests t s =
          ({ s with unknown := extractStep env opts requests t }, false) := by
        simp [runIter, hjob, hemp]
      rw [runFrom, hiter]
      refine ⟨_, rfl, extractStep_subset env opts requests t, by simp⟩


/-- C3: with non-negative budgets and the collaborator guarantee that a
fully successful download leaves nothing unknown at the next extraction,
run terminates within maxCorrupted + maxFailures + 2 loop iterations,
performs at most maxCorrupted + maxFailures + 1 GENERATE steps, and when
it returns not paused the unknown-simulations list it reports is a
subset of the initial request list. -/
theorem C3_maker_run {σ : Type} (env : Env σ) (opts : MakerOptions)
    (requests : List σ)
    (hmc : 0 ≤ opts.maxCorrupted) (hmf : 0 ≤ opts.maxFailures)
    (hcouple : ∀ t, downloadSimulations (env.download t) = true →
      extractStep env opts requests (t + 1) = []) :
    ∃ final, run env opts requests
        (opts.maxCorrupted.toNat + opts.maxFailures.toNat + 2) = some final ∧
      final.gens ≤ opts.maxCorrupted.toNat + opts.maxFailures.toNat + 1 ∧
      (final.paused = false → final.unknown ⊆ requests) := by
  obtain ⟨final, hrun, hsub, hgens⟩ := runFrom_bounded env opts requests hmc hmf
    hcouple (opts.maxCorrupted.toNat + opts.maxFailures.toNat + 2) 0 (initState σ)
    rfl (by intro x hx; simp [initState] at hx) (by omega) (by simp [initState])
  refine ⟨final, hrun, ?_, fun _ => hsub⟩
  simp [initState] at hgens
  omega

/-- C4: in every run-loop iteration that reaches the WAIT and DOWNLOAD
steps (a pending job log file, or a non-empty extraction within budgets,
and no keyboard interrupt), the corruptions counter grows by one exactly
when DOWNLOAD reports at least one failed registration and is unchanged
otherwise, and the failures counter grows by one exactly when WAIT
reports failure and is unchanged otherwise; DOWNLOAD reports failure
exactly when at least one registration outcome is bad. -/
theorem C4_counters {σ : Type} (env : Env σ) (opts : MakerOptions)
    (requests : List σ) (t : Nat) (s : MakerState σ)
    (hrun : s.jobPending = true ∨
      ((extractStep env opts requests t).isEmpty = false ∧
        guardStop opts s.corruptions s.failures = false))
    (hint : env.interrupt t = false) :
    (runIter env opts requests t s).1.corruptions =
      (if downloadSimulations (env.download t) then s.corruptions
       else s.corruptions + 1) ∧
    (runIter env opts requests t s).1.failures =
      (if env.waitOk t then s.failures else s.failures + 1) ∧
    (downloadSimulations (env.download t) = false ↔
      ∃ b ∈ env.download t, b = false) := by
  have hlast : downloadSimulations (env.download t) = false ↔
      ∃ b ∈ env.download t, b = false := by
    simp [downloadSimulations, List.all_eq_true]
  refine ⟨?_, ?_, hlast⟩ <;>
    (rcases hrun with hjob | ⟨hemp, hguard⟩
     · rcases hw : env.waitOk t with _ | _ <;>
         rcases hd : downloadSimulations (env.download t) with _ | _ <;>
         simp [runIter, hjob, waitDownload, hint, hw, hd]
     · rcases hjob : s.jobPending with _ | _
       · rcases hw : env.waitOk t with _ | _ <;>
           rcases hd : downloadSimulations (env.download t) with _ | _ <;>
           simp [runIter, hjob, hemp, hguard, waitDownload, hint, hw, hd]
       · rcases hw : env.waitOk t with _ | _ <;>
           rcases hd : downloadSimulations (env.download t) with _ | _ <;>
           simp [runIter, hjob, waitDownload, hint, hw, hd])

/-- Witness for C3: one request, an environment that extracts it at once. -/
theorem C3_maker_run_witness :
    (0 : Int) ≤ opts0.maxCorrupted ∧ (0 : Int) ≤ opts0.maxFailures ∧
    (∀ t, downloadSimulations (env0.download t) = true →
      extractStep env0 opts0 [()] (t + 1) = []) ∧
    ∃ final, run env0 opts0 [()]
        (opts0.maxCorrupted.toNat + opts0.maxFailures.toNat + 2) = some final ∧
      final.gens ≤ opts0.maxCorrupted.toNat + opts0.maxFailures.toNat + 1 := by
  have hcouple : ∀ t, downloadSimulations (env0.download t) = true →
      extractStep env0 opts0 [()] (t + 1) = [] := by
    intro t _
    simp [extractStep, env0, opts0]
  have h := C3_maker_run env0 opts0 [()] (by decide) (by decide) hcouple
  obtain ⟨final, hrun, hgens, _⟩ := h
  exact ⟨by decide, by decide, hcouple, final, hrun, hgens⟩

/-- Witness for C4: a resumed iteration with a failing wait and one
failed registration. -/
theorem C4_counters_witness :
    ((⟨[], 0, 0, true, false, 0⟩ : MakerState Unit).jobPending = true ∨
      ((extractStep envC4 opts0 [()] 0).isEmpty = false ∧
        guardStop opts0 0 0 = false)) ∧
    envC4.interrupt 0 = false ∧
    (runIter envC4 opts0 [()] 0 ⟨[], 0, 0, true, false, 0⟩).1.corruptions =
      (if downloadSimulations (envC4.download 0) then 0 else 0 + 1) ∧
    (runIter envC4 opts0 [()] 0 ⟨[], 0, 0, true, false, 0⟩).1.failures =
      (if envC4.waitOk 0 then 0 else 0 + 1) ∧
    (downloadSimulations (envC4.download 0) = false ↔
      ∃ b ∈ envC4.download 0, b = false) := by
  have h := C4_counters envC4 opts0 [()] 0 ⟨[], 0, 0, true, false, 0⟩
    (Or.inl rfl) rfl
  exact ⟨Or.inl rfl, rfl, h.1, h.2.1, h.2.2⟩


end Hateno.Maker
